import Mathlib

/-!
Shallow embedding of the realtime voice-call bridge `src/server.js`
(the named source file of the repository; the unnamed variants are
sibling drafts of the same server).

The embedding models the per-connection WebSocket handler installed by
`wss.on("connection", ...)`: the per-connection mutable state
(`lastEmotion`, the file-backed per-call memory list and append-only
call log), the pure helpers `classifyIntent` and `emotionToTone`, and
the `ws.on("message")` dispatch including `handleUserSpeech`.

Effectful statements of the source are translated to an explicit
`Effect` trace in program order, so that ordering claims (a log entry
written before the outbound reply, the user memory entry appended
before the gateway dispatch, ...) can be stated about positions in the
trace.  The external gateway call `client.responses.create` is modelled
by a `GatewayOutcome` parameter: the promise either rejects
(`.throws err`) or resolves with `resp.output` either `undefined`
(`.returns none`) or an array of output items (`.returns (some items)`).
-/

namespace VoiceServer

/-- A conversation memory entry as written by `saveMemory(callId, obj)`:
the stored object has a `role` field and a `content` field (the `ts`
timestamps some variants add carry no information the handler reads
back, so they are not modelled). -/
structure MemoryEntry where
  role : String
  content : String
deriving DecidableEq, Repr

/-- Log records written by `writeCallLog` from the connection handler of
`src/server.js`, tagged by their `event` field. -/
inductive LogEvent where
  | wsConnect
  | userSpeech (text : String) (isFinal : Option Bool)
  | assistantTextLog (assistantText : String)
  | openaiError (error : String)
  | callEnd
  | wsDisconnect
deriving DecidableEq, Repr

/-- One role/content item of the `input` array passed to
`client.responses.create`. -/
structure PromptMsg where
  role : String
  content : String
deriving DecidableEq, Repr

/-- An outbound JSON frame written with `ws.send(JSON.stringify(...))`:
either `{event: "assistant_audio", audio}` or
`{event: "assistant_text", text}`. -/
inductive OutFrame where
  | assistantAudio (audio : String)
  | assistantTextOut (text : String)
deriving DecidableEq, Repr

/-- One element of `resp.output`.  `src/server.js` reads the fields
`o.type`, `o.content` and `o.audio` of each item; `audio` may be absent
(`none`). -/
structure OutputItem where
  type : String
  content : String
  audio : Option String
deriving DecidableEq, Repr

/-- Outcome of the awaited `client.responses.create` call: the promise
rejects with an error, or resolves with `resp.output` either absent
(`undefined`) or an array of items. -/
inductive GatewayOutcome where
  | throws (err : String)
  | returns (output : Option (List OutputItem))
deriving DecidableEq, Repr

/-- One effectful step of the connection handler, in program order. -/
inductive Effect where
  | setEmotion (e : String)
  | memAppend (m : MemoryEntry)
  | logAppend (ev : LogEvent)
  | dispatch (prompt : List PromptMsg)
  | send (f : OutFrame)
  | closeConn
deriving DecidableEq, Repr

/-- Per-connection live state: the `lastEmotion` closure variable of the
connection handler, the per-call memory list behind
`getMemory`/`saveMemory`, and the per-call append-only log behind
`writeCallLog`. -/
structure SessState where
  lastEmotion : String
  memory : List MemoryEntry
  log : List LogEvent
deriving DecidableEq, Repr

/-- State at the top of `wss.on("connection")` for a fresh call id:
`lastEmotion = "neutral"`, no memory file yet (`getMemory` returns
`[]`), and the `ws_connect` log record already appended. -/
def initSess : SessState :=
  { lastEmotion := "neutral", memory := [], log := [LogEvent.wsConnect] }

/-- JS word character, the `\w` class of the regexes in
`classifyIntent`: ASCII letter, digit or underscore. -/
def isWordChar (c : Char) : Bool :=
  c.isAlphanum || c = '_'

/-- Whether an option holds a character that may sit next to a `\b`
word boundary: absent (string edge) or a non-word character. -/
def nonWordOpt (oc : Option Char) : Bool :=
  match oc with
  | none => true
  | some c => !isWordChar c

/-- Whether the keyword `kw` matches at the head of `s` with `\b`
boundaries on both sides, `prev` being the character just before this
position (`none` at the start of the string).  All keywords consist of
word characters, so `\bkw\b` holds exactly when the surrounding
characters (when present) are non-word. -/
def matchHere (kw : List Char) (prev : Option Char) (s : List Char) : Bool :=
  kw.isPrefixOf s && nonWordOpt prev && nonWordOpt (s.drop kw.length).head?

/-- Whether `\bkw\b` matches anywhere in the remaining characters `s`,
`prev` being the character just before `s`. -/
def containsWordFrom (kw : List Char) (prev : Option Char) : List Char → Bool
  | [] => matchHere kw prev []
  | c :: rest => matchHere kw prev (c :: rest) || containsWordFrom kw (some c) rest

/-- Whether the regex alternation `\b(kw1|kw2|...)\b` matches the
(already lowercased) text `t`: some keyword occurs in `t` delimited by
word boundaries. -/
def testWords (kws : List String) (t : String) : Bool :=
  kws.any (fun kw => containsWordFrom kw.toList none t.toList)

/-- The keywords of the first rule of `classifyIntent`. -/
def scheduleKeywords : List String := ["schedule", "interview", "book", "appointment"]

/-- The keywords of the second rule of `classifyIntent`. -/
def infoKeywords : List String := ["hours", "when", "open", "close", "location", "address"]

/-- The keywords of the third rule of `classifyIntent`. -/
def greetingKeywords : List String := ["hi", "hello", "hey"]

/-- JS `String.prototype.toLowerCase()`, modelled characterwise on the
underlying character list (ASCII case mapping, which is all the keyword
matching below can observe). -/
def lowerStr (s : String) : String :=
  String.mk (s.data.map Char.toLower)

/-- Embedding of `classifyIntent(text)` of `src/server.js`: lowercase
the text, then test the three word-boundary regexes in order; the first
match wins, no match yields `"unknown"`. -/
def classifyIntent (text : String) : String :=
  let t := lowerStr text
  if testWords scheduleKeywords t then "schedule_interview"
  else if testWords infoKeywords t then "info"
  else if testWords greetingKeywords t then "greeting"
  else "unknown"

/-- Embedding of `emotionToTone(emotion)` of `src/server.js`: a switch
on the lowercased label with a default tone (`(emotion || "")` only
guards the `undefined` case; in the handler the argument is always the
string `lastEmotion`). -/
def emotionToTone (emotion : String) : String :=
  let e := lowerStr emotion
  if e = "angry" then "calm and steady"
  else if e = "sad" then "soft and caring"
  else if e = "excited" then "upbeat and energetic"
  else "friendly and natural"

/-- The system-prompt template literal of `handleUserSpeech`, with the
`tone` interpolation. -/
def systemPrompt (tone : String) : String :=
  "\nYou are Jessica, a warm, human-sounding receptionist.\nSpeak in short natural sentences.\nTone style: " ++ tone ++
  ".\nIf caller wants to schedule, guide them to provide:\n- full name\n- availability\n- phone number.\nNever say you\x27re an AI.\nAllow interruptions, stay conversational.\n"

/-- The fixed apology text sent in the catch block of
`handleUserSpeech`. -/
def apologyText : String := "Sorry — I\x27m having trouble responding."

/-- The stringified TypeError raised by `resp.output.find` when
`resp.output` is `undefined` (the preceding optional-chained read only
yields `""`), which the catch block logs via `String(err)`. -/
def undefinedFindError : String :=
  "TypeError: Cannot read properties of undefined (reading \x27find\x27)"

/-- JS `array.join(" ")`. -/
def joinSpace (l : List String) : String := String.intercalate " " l

/-- Embedding of the `assistantText` extraction:
`resp.output?.filter(o => o.type === "output_text")?.map(o => o.content)?.join(" ") || ""`.
When `resp.output` is `undefined` the optional chain yields `undefined`
and `|| ""` gives `""`; on a string, `x || ""` is the identity. -/
def assistantTextOf (output : Option (List OutputItem)) : String :=
  match output with
  | none => ""
  | some items => joinSpace ((items.filter (fun o => o.type = "output_text")).map (fun o => o.content))

/-- Embedding of the audio extraction: `resp.output.find(o => o.type ===
"output_audio")` followed by the truthiness test `audioItem?.audio`
(truthy exactly when the item exists, has an `audio` field, and that
string is non-empty). -/
def extractAudio (items : List OutputItem) : Option String :=
  match items.find? (fun o => o.type = "output_audio") with
  | none => none
  | some it =>
    match it.audio with
    | none => none
    | some a => if a = "" then none else some a

/-- Embedding of `if (emotion) lastEmotion = emotion;` as an effect
list: a JS string is truthy exactly when it is present and non-empty. -/
def emoEffects (emotion : Option String) : List Effect :=
  match emotion with
  | none => []
  | some e => if e = "" then [] else [Effect.setEmotion e]

/-- The value of `lastEmotion` after the `if (emotion)` update, given
the state at handler entry. -/
def effectiveEmotion (st : SessState) (emotion : Option String) : String :=
  match emotion with
  | none => st.lastEmotion
  | some e => if e = "" then st.lastEmotion else e

/-- The `input` array passed to `client.responses.create`: the system
entry built from the tone, then the memory snapshot read by
`getMemory(callId)` at the top of the handler (before the user entry is
saved), mapped to role/content pairs, then the current user turn. -/
def promptOf (st : SessState) (emotion : Option String) (text : String) : List PromptMsg :=
  let tone := emotionToTone (effectiveEmotion st emotion)
  { role := "system", content := systemPrompt tone } ::
    (st.memory.map (fun m => { role := m.role, content := m.content })) ++
    [{ role := "user", content := text }]

/-- Effects of `handleUserSpeech` up to the gateway dispatch, in program
order: the emotion update, then `saveMemory` of the user entry, then the
`user_speech` log record.  (`getMemory` and `classifyIntent` are reads;
the `intent` variable is computed but never used afterwards in
`src/server.js`.) -/
def turnSyncEffects (emotion : Option String) (text : String) (isFinal : Option Bool) : List Effect :=
  emoEffects emotion ++
    [Effect.memAppend { role := "user", content := text },
     Effect.logAppend (LogEvent.userSpeech text isFinal)]

/-- Effects of `handleUserSpeech` after the awaited gateway call
settles.  On rejection the catch block logs `openai_error` and sends
the apology.  On resolution with `resp.output` `undefined`, the
assistant entry (empty text) and its log record are written first, then
`resp.output.find` throws and the catch block runs.  On resolution with
an array, the assistant entry and log record are written and the audio
frame is sent exactly when the truthy-audio extraction succeeds (there
is no text fallback in `src/server.js`). -/
def turnContEffects (gw : GatewayOutcome) : List Effect :=
  match gw with
  | GatewayOutcome.throws err =>
      [Effect.logAppend (LogEvent.openaiError err),
       Effect.send (OutFrame.assistantTextOut apologyText)]
  | GatewayOutcome.returns none =>
      [Effect.memAppend { role := "assistant", content := "" },
       Effect.logAppend (LogEvent.assistantTextLog ""),
       Effect.logAppend (LogEvent.openaiError undefinedFindError),
       Effect.send (OutFrame.assistantTextOut apologyText)]
  | GatewayOutcome.returns (some items) =>
      let aText := assistantTextOf (some items)
      [Effect.memAppend { role := "assistant", content := aText },
       Effect.logAppend (LogEvent.assistantTextLog aText)] ++
      (match extractAudio items with
       | some a => [Effect.send (OutFrame.assistantAudio a)]
       | none => [])

/-- Full effect trace of one `handleUserSpeech(text, isFinal, emotion)`
invocation.  When `data.text` is `undefined` (`none`), the emotion
update still runs, then `classifyIntent(undefined)` throws a TypeError
that the `ws.on("message")` catch swallows, so nothing else happens. -/
def turnEffects (st : SessState) (text : Option String) (isFinal : Option Bool)
    (emotion : Option String) (gw : GatewayOutcome) : List Effect :=
  match text with
  | none => emoEffects emotion
  | some t =>
      turnSyncEffects emotion t isFinal ++
        [Effect.dispatch (promptOf st emotion t)] ++
        turnContEffects gw

/-- The fields of a parsed inbound JSON frame that the handler reads:
`data.event`, `data.text`, `data.isFinal`, `data.emotion` (each possibly
absent). -/
structure FrameData where
  event : Option String
  text : Option String
  isFinal : Option Bool
  emotion : Option String
deriving DecidableEq, Repr

/-- An inbound WebSocket message: either not parseable as JSON
(`JSON.parse` throws) or a parsed frame. -/
inductive InMsg where
  | malformed
  | frame (d : FrameData)
deriving DecidableEq, Repr

/-- Effect trace of one `ws.on("message")` invocation of
`src/server.js`.  A malformed frame is caught by the handler catch
(`console.warn` only — no `writeCallLog`).  A `media` frame is
explicitly ignored; a `user_speech` frame runs `handleUserSpeech`; a
`stop` frame appends a `call_end` log record; every other event value
(including `call_end`) matches none of the three `if` statements and
does nothing. -/
def msgEffects (m : InMsg) (gw : GatewayOutcome) (st : SessState) : List Effect :=
  match m with
  | InMsg.malformed => []
  | InMsg.frame d =>
      if d.event = some "media" then []
      else if d.event = some "user_speech" then turnEffects st d.text d.isFinal d.emotion gw
      else if d.event = some "stop" then [Effect.logAppend LogEvent.callEnd]
      else []

/-- Apply one effect to the live state.  `dispatch` and `send` leave
the session state untouched (the frames a trace sends are collected
separately by `sendsOf`). -/
def applyEff (st : SessState) : Effect → SessState
  | Effect.setEmotion e => { st with lastEmotion := e }
  | Effect.memAppend m => { st with memory := st.memory ++ [m] }
  | Effect.logAppend ev => { st with log := st.log ++ [ev] }
  | Effect.dispatch _ => st
  | Effect.send _ => st
  | Effect.closeConn => st

/-- Apply an effect trace in order. -/
def applyEffects (st : SessState) (effs : List Effect) : SessState :=
  effs.foldl applyEff st

/-- Number of `dispatch` effects (inference calls started) in a trace. -/
def dispatchCount (effs : List Effect) : Nat :=
  (effs.filter (fun e => match e with | Effect.dispatch _ => true | _ => false)).length

/-- The outbound frames sent by a trace, in order. -/
def sendsOf (effs : List Effect) : List OutFrame :=
  effs.filterMap (fun e => match e with | Effect.send f => some f | _ => none)

/-- The log records appended by a trace, in order. -/
def logsOf (effs : List Effect) : List LogEvent :=
  effs.filterMap (fun e => match e with | Effect.logAppend ev => some ev | _ => none)

/-- The memory entries appended by a trace, in order. -/
def memAppendsOf (effs : List Effect) : List MemoryEntry :=
  effs.filterMap (fun e => match e with | Effect.memAppend m => some m | _ => none)

/-- The prompts dispatched to the gateway by a trace, in order. -/
def dispatchesOf (effs : List Effect) : List (List PromptMsg) :=
  effs.filterMap (fun e => match e with | Effect.dispatch p => some p | _ => none)

/-- Sequential semantics of one inbound message: state after the
handler, paired with the outbound frames it sent. -/
def stepSession (st : SessState) (m : InMsg) (gw : GatewayOutcome) : SessState × List OutFrame :=
  (applyEffects st (msgEffects m gw st), sendsOf (msgEffects m gw st))

/-!
Interleaved semantics of the same handler.  `ws.on("message")` installs
an async listener; the `ws` event emitter invokes it once per arriving
message and does not await the returned promise, so when an invocation
suspends at `await client.responses.create(...)` the listener for the
next message runs to its own suspension point before the first
continuation resumes.  A delivery step therefore runs the synchronous
prefix of the handler (through the gateway dispatch) and parks the turn
as in-flight; a resolve step runs the continuation of one in-flight
turn when its gateway promise settles.
-/

/-- A dispatched, not yet settled gateway call. -/
structure PendingCall where
  prompt : List PromptMsg
deriving DecidableEq, Repr

/-- Connection state under the interleaved semantics: live session
state, the in-flight gateway calls in dispatch order, and all outbound
frames sent so far. -/
structure ConcState where
  sess : SessState
  inFlight : List PendingCall
  sent : List OutFrame
deriving DecidableEq, Repr

/-- Fresh connection: no in-flight call, nothing sent. -/
def initConc : ConcState :=
  { sess := initSess, inFlight := [], sent := [] }

/-- Deliver one inbound message: run the handler synchronously up to its
first suspension point.  Only a `user_speech` frame with a `text` field
reaches the `await` on the gateway; it dispatches a new inference call
regardless of how many are already in flight (the source has no
single-flight guard). -/
def deliverMsg (cs : ConcState) (m : InMsg) : ConcState :=
  match m with
  | InMsg.malformed => cs
  | InMsg.frame d =>
      if d.event = some "media" then cs
      else if d.event = some "user_speech" then
        match d.text with
        | none =>
            { cs with sess := applyEffects cs.sess (emoEffects d.emotion) }
        | some t =>
            let effs := turnSyncEffects d.emotion t d.isFinal
            { sess := applyEffects cs.sess effs,
              inFlight := cs.inFlight ++ [{ prompt := promptOf cs.sess d.emotion t }],
              sent := cs.sent ++ sendsOf effs }
      else if d.event = some "stop" then
        { cs with sess := applyEffects cs.sess [Effect.logAppend LogEvent.callEnd] }
      else cs

/-- Resolve the `i`-th in-flight gateway call with outcome `gw`: run the
continuation of `handleUserSpeech` and retire the call. -/
def resolveCall (cs : ConcState) (i : Nat) (gw : GatewayOutcome) : ConcState :=
  match cs.inFlight.get? i with
  | none => cs
  | some _ =>
      { sess := applyEffects cs.sess (turnContEffects gw),
        inFlight := cs.inFlight.eraseIdx i,
        sent := cs.sent ++ sendsOf (turnContEffects gw) }

/-- Outbound frames of one turn as a function of the gateway outcome
alone: the apology text on a rejected promise or an `undefined`
`resp.output`, the audio frame when truthy audio is extracted, and
nothing at all on a successful turn without audio. -/
def outboundOfOutcome (gw : GatewayOutcome) : List OutFrame :=
  match gw with
  | GatewayOutcome.throws _ => [OutFrame.assistantTextOut apologyText]
  | GatewayOutcome.returns none => [OutFrame.assistantTextOut apologyText]
  | GatewayOutcome.returns (some items) =>
      match extractAudio items with
      | some a => [OutFrame.assistantAudio a]
      | none => []

/-- The character governing the boundary before a matched keyword: the
last character of the prefix `pre` when there is one, else the context
character `prev`. -/
def prevOf (pre : List Char) (prev : Option Char) : Option Char :=
  match pre.getLast? with
  | some c => some c
  | none => prev

/-- Spec-side reading of keyword containment: the keyword occurs
somewhere in the character list, delimited on both sides by a string
edge or a non-word character. -/
def occursAsWord (kw : List Char) (l : List Char) : Prop :=
  ∃ pre post, l = pre ++ kw ++ post ∧
    nonWordOpt pre.getLast? = true ∧ nonWordOpt post.head? = true

/-! Helper lemmas about effect traces. -/

theorem sendsOf_append (a b : List Effect) : sendsOf (a ++ b) = sendsOf a ++ sendsOf b := by
  simp [sendsOf]

theorem logsOf_append (a b : List Effect) : logsOf (a ++ b) = logsOf a ++ logsOf b := by
  simp [logsOf]

theorem memAppendsOf_append (a b : List Effect) :
    memAppendsOf (a ++ b) = memAppendsOf a ++ memAppendsOf b := by
  simp [memAppendsOf]

theorem dispatchCount_append (a b : List Effect) :
    dispatchCount (a ++ b) = dispatchCount a + dispatchCount b := by
  simp [dispatchCount]

theorem emoEffects_cases (emo : Option String) :
    emoEffects emo = [] ∨ ∃ e, emo = some e ∧ e ≠ "" ∧ emoEffects emo = [Effect.setEmotion e] := by
  match emo with
  | none => exact Or.inl rfl
  | some e =>
      by_cases h : e = ""
      · exact Or.inl (by simp [emoEffects, h])
      · exact Or.inr ⟨e, rfl, h, by simp [emoEffects, h]⟩

theorem sendsOf_emoEffects (emo : Option String) : sendsOf (emoEffects emo) = [] := by
  rcases emoEffects_cases emo with h | ⟨e, _, _, h⟩ <;> simp [h, sendsOf]

theorem logsOf_emoEffects (emo : Option String) : logsOf (emoEffects emo) = [] := by
  rcases emoEffects_cases emo with h | ⟨e, _, _, h⟩ <;> simp [h, logsOf]

theorem memAppendsOf_emoEffects (emo : Option String) : memAppendsOf (emoEffects emo) = [] := by
  rcases emoEffects_cases emo with h | ⟨e, _, _, h⟩ <;> simp [h, memAppendsOf]

theorem dispatchCount_emoEffects (emo : Option String) : dispatchCount (emoEffects emo) = 0 := by
  rcases emoEffects_cases emo with h | ⟨e, _, _, h⟩ <;> simp [h, dispatchCount]

theorem applyEffects_append (st : SessState) (a b : List Effect) :
    applyEffects st (a ++ b) = applyEffects (applyEffects st a) b := by
  simp [applyEffects]

theorem applyEffects_memory (st : SessState) (effs : List Effect) :
    (applyEffects st effs).memory = st.memory ++ memAppendsOf effs := by
  induction effs generalizing st with
  | nil => simp [applyEffects, memAppendsOf]
  | cons e rest ih =>
      have hstep : applyEffects st (e :: rest) = applyEffects (applyEff st e) rest := rfl
      rw [hstep, ih]
      cases e <;> simp [applyEff, memAppendsOf, List.filterMap_cons]

theorem applyEffects_log (st : SessState) (effs : List Effect) :
    (applyEffects st effs).log = st.log ++ logsOf effs := by
  induction effs generalizing st with
  | nil => simp [applyEffects, logsOf]
  | cons e rest ih =>
      have hstep : applyEffects st (e :: rest) = applyEffects (applyEff st e) rest := rfl
      rw [hstep, ih]
      cases e <;> simp [applyEff, logsOf, List.filterMap_cons]

theorem applyEffects_lastEmotion_of_no_set (st : SessState) (effs : List Effect)
    (h : ∀ s, Effect.setEmotion s ∉ effs) :
    (applyEffects st effs).lastEmotion = st.lastEmotion := by
  induction effs generalizing st with
  | nil => rfl
  | cons e rest ih =>
      have hrest : ∀ s, Effect.setEmotion s ∉ rest :=
        fun s hs => h s (List.mem_cons_of_mem _ hs)
      cases e with
      | setEmotion s => exact absurd (List.mem_cons_self _ _) (h s)
      | memAppend m => exact ih _ hrest
      | logAppend ev => exact ih _ hrest
      | dispatch p => exact ih _ hrest
      | send f => exact ih _ hrest
      | closeConn => exact ih _ hrest

theorem applyEffects_emo_lastEmotion (st : SessState) (emo : Option String) :
    (applyEffects st (emoEffects emo)).lastEmotion = effectiveEmotion st emo := by
  rcases emo with _ | e
  · rfl
  · by_cases h : e = "" <;> simp [emoEffects, effectiveEmotion, h, applyEffects, applyEff]

/-! Projections of the turn sub-traces. -/

theorem memAppendsOf_sync (emo : Option String) (t : String) (fin : Option Bool) :
    memAppendsOf (turnSyncEffects emo t fin) = [{ role := "user", content := t }] := by
  rcases emoEffects_cases emo with h | ⟨e, _, _, h⟩ <;>
    simp [turnSyncEffects, h, memAppendsOf]

theorem logsOf_sync (emo : Option String) (t : String) (fin : Option Bool) :
    logsOf (turnSyncEffects emo t fin) = [LogEvent.userSpeech t fin] := by
  rcases emoEffects_cases emo with h | ⟨e, _, _, h⟩ <;>
    simp [turnSyncEffects, h, logsOf]

theorem sendsOf_sync (emo : Option String) (t : String) (fin : Option Bool) :
    sendsOf (turnSyncEffects emo t fin) = [] := by
  rcases emoEffects_cases emo with h | ⟨e, _, _, h⟩ <;>
    simp [turnSyncEffects, h, sendsOf]

theorem dispatchCount_sync (emo : Option String) (t : String) (fin : Option Bool) :
    dispatchCount (turnSyncEffects emo t fin) = 0 := by
  rcases emoEffects_cases emo with h | ⟨e, _, _, h⟩ <;>
    simp [turnSyncEffects, h, dispatchCount]

theorem sendsOf_cont (gw : GatewayOutcome) :
    sendsOf (turnContEffects gw) = outboundOfOutcome gw := by
  rcases gw with err | _ | items
  · simp [turnContEffects, outboundOfOutcome, sendsOf]
  · simp [turnContEffects, outboundOfOutcome, sendsOf]
  · rcases h : extractAudio items with _ | a <;>
      simp [turnContEffects, outboundOfOutcome, sendsOf, h]

theorem dispatchCount_cont (gw : GatewayOutcome) :
    dispatchCount (turnContEffects gw) = 0 := by
  rcases gw with err | _ | items
  · simp [turnContEffects, dispatchCount]
  · simp [turnContEffects, dispatchCount]
  · rcases h : extractAudio items with _ | a <;>
      simp [turnContEffects, dispatchCount, h]

theorem memAppendsOf_cont_throws (err : String) :
    memAppendsOf (turnContEffects (GatewayOutcome.throws err)) = [] := by
  simp [turnContEffects, memAppendsOf]

theorem memAppendsOf_cont_returns (out : Option (List OutputItem)) :
    memAppendsOf (turnContEffects (GatewayOutcome.returns out)) =
      [{ role := "assistant", content := assistantTextOf out }] := by
  rcases out with _ | items
  · simp [turnContEffects, memAppendsOf, assistantTextOf]
  · rcases h : extractAudio items with _ | a <;>
      simp [turnContEffects, memAppendsOf, h]

theorem logsOf_cont_throws (err : String) :
    logsOf (turnContEffects (GatewayOutcome.throws err)) = [LogEvent.openaiError err] := by
  simp [turnContEffects, logsOf]

theorem turnEffects_some (st : SessState) (t : String) (fin : Option Bool)
    (emo : Option String) (gw : GatewayOutcome) :
    turnEffects st (some t) fin emo gw =
      turnSyncEffects emo t fin ++ [Effect.dispatch (promptOf st emo t)] ++ turnContEffects gw := rfl

theorem dispatchCount_dispatch_single (p : List PromptMsg) :
    dispatchCount [Effect.dispatch p] = 1 := by simp [dispatchCount]

theorem sendsOf_dispatch_single (p : List PromptMsg) :
    sendsOf [Effect.dispatch p] = [] := by simp [sendsOf]

theorem logsOf_dispatch_single (p : List PromptMsg) :
    logsOf [Effect.dispatch p] = [] := by simp [logsOf]

theorem memAppendsOf_dispatch_single (p : List PromptMsg) :
    memAppendsOf [Effect.dispatch p] = [] := by simp [memAppendsOf]

theorem dispatchesOf_append (a b : List Effect) :
    dispatchesOf (a ++ b) = dispatchesOf a ++ dispatchesOf b := by
  simp [dispatchesOf]

theorem dispatchesOf_sync (emo : Option String) (t : String) (fin : Option Bool) :
    dispatchesOf (turnSyncEffects emo t fin) = [] := by
  rcases emoEffects_cases emo with h | ⟨e, _, _, h⟩ <;>
    simp [turnSyncEffects, h, dispatchesOf]

theorem dispatchesOf_cont (gw : GatewayOutcome) :
    dispatchesOf (turnContEffects gw) = [] := by
  rcases gw with err | _ | items
  · simp [turnContEffects, dispatchesOf]
  · simp [turnContEffects, dispatchesOf]
  · rcases h : extractAudio items with _ | a <;>
      simp [turnContEffects, dispatchesOf, h]

theorem dispatchesOf_dispatch_single (p : List PromptMsg) :
    dispatchesOf [Effect.dispatch p] = [p] := by simp [dispatchesOf]

theorem msgEffects_user_speech (st : SessState) (gw : GatewayOutcome)
    (txt : Option String) (fin : Option Bool) (emo : Option String) :
    msgEffects (InMsg.frame { event := some "user_speech", text := txt, isFinal := fin, emotion := emo }) gw st =
      turnEffects st txt fin emo gw := by
  simp [msgEffects]

theorem closeConn_not_in_msgEffects (m : InMsg) (gw : GatewayOutcome) (st : SessState) :
    Effect.closeConn ∉ msgEffects m gw st := by
  rcases m with _ | d
  · simp [msgEffects]
  · by_cases hm : d.event = some "media"
    · simp [msgEffects, hm]
    · by_cases hu : d.event = some "user_speech"
      · rcases d with ⟨ev, txt, fin, emo⟩
        rcases txt with _ | t
        · rcases emoEffects_cases emo with h | ⟨e, _, _, h⟩ <;>
            simp_all [msgEffects, turnEffects, h]
        · have hsync : Effect.closeConn ∉ turnSyncEffects emo t fin := by
            rcases emoEffects_cases emo with h | ⟨e, _, _, h⟩ <;>
              simp [turnSyncEffects, h]
          have hcont : Effect.closeConn ∉ turnContEffects gw := by
            rcases gw with err | _ | items
            · simp [turnContEffects]
            · simp [turnContEffects]
            · rcases h : extractAudio items with _ | a <;> simp [turnContEffects, h]
          simp_all [msgEffects, turnEffects]
      · by_cases hs : d.event = some "stop" <;> simp [msgEffects, hm, hu, hs]

/-! Lemmas connecting the keyword scanner to the decomposition reading
of word-boundary containment. -/

theorem isPrefixOf_eq_true_iff (kw : List Char) :
    ∀ s : List Char, kw.isPrefixOf s = true ↔ ∃ post, s = kw ++ post := by
  induction kw with
  | nil =>
      intro s
      simp [List.isPrefixOf]
  | cons a kw ih =>
      intro s
      cases s with
      | nil => simp [List.isPrefixOf]
      | cons b s =>
          simp only [List.isPrefixOf, Bool.and_eq_true, beq_iff_eq, ih, List.cons_append,
            List.cons.injEq]
          constructor
          · rintro ⟨rfl, post, rfl⟩
            exact ⟨post, rfl, rfl⟩
          · rintro ⟨post, rfl, rfl⟩
            exact ⟨rfl, post, rfl⟩

theorem prevOf_none (pre : List Char) : prevOf pre none = pre.getLast? := by
  cases h : pre.getLast? <;> simp [prevOf, h]

theorem prevOf_nil (prev : Option Char) : prevOf [] prev = prev := rfl

theorem prevOf_cons (c : Char) (pre : List Char) (prev : Option Char) :
    prevOf (c :: pre) prev = prevOf pre (some c) := by
  cases pre with
  | nil => rfl
  | cons c' pre' =>
      unfold prevOf
      rw [List.getLast?_cons_cons]
      cases h : (c' :: pre').getLast? with
      | none => exact absurd (List.getLast?_eq_none_iff.mp h) (by simp)
      | some x => rfl

theorem matchHere_iff (kw : List Char) (prev : Option Char) (s : List Char) :
    matchHere kw prev s = true ↔
      ∃ post, s = kw ++ post ∧ nonWordOpt prev = true ∧ nonWordOpt post.head? = true := by
  unfold matchHere
  simp only [Bool.and_eq_true]
  constructor
  · rintro ⟨⟨h1, h2⟩, h3⟩
    obtain ⟨post, rfl⟩ := (isPrefixOf_eq_true_iff kw s).mp h1
    exact ⟨post, rfl, h2, by simpa [List.drop_left] using h3⟩
  · rintro ⟨post, rfl, h2, h3⟩
    exact ⟨⟨(isPrefixOf_eq_true_iff kw _).mpr ⟨post, rfl⟩, h2⟩,
      by simpa [List.drop_left] using h3⟩

theorem containsWordFrom_iff (kw : List Char) :
    ∀ (l : List Char) (prev : Option Char),
      containsWordFrom kw prev l = true ↔
        ∃ pre post, l = pre ++ kw ++ post ∧
          nonWordOpt (prevOf pre prev) = true ∧ nonWordOpt post.head? = true := by
  intro l
  induction l with
  | nil =>
      intro prev
      rw [show containsWordFrom kw prev [] = matchHere kw prev [] from rfl, matchHere_iff]
      constructor
      · rintro ⟨post, h, h2, h3⟩
        exact ⟨[], post, by simpa using h, by simpa [prevOf_nil], h3⟩
      · rintro ⟨pre, post, h, h2, h3⟩
        obtain ⟨hpre, hkw, hpost⟩ : pre = [] ∧ kw = [] ∧ post = [] := by simpa using h.symm
        subst hpre
        exact ⟨post, by simpa using h, by simpa [prevOf_nil] using h2, h3⟩
  | cons c rest ih =>
      intro prev
      rw [show containsWordFrom kw prev (c :: rest) =
            (matchHere kw prev (c :: rest) || containsWordFrom kw (some c) rest) from rfl,
        Bool.or_eq_true, matchHere_iff, ih (some c)]
      constructor
      · rintro (⟨post, h, h2, h3⟩ | ⟨pre, post, h, h2, h3⟩)
        · exact ⟨[], post, by simpa using h, by simpa [prevOf_nil], h3⟩
        · exact ⟨c :: pre, post, by simp [h], by simpa [prevOf_cons] using h2, h3⟩
      · rintro ⟨pre, post, h, h2, h3⟩
        cases pre with
        | nil =>
            exact Or.inl ⟨post, by simpa using h, by simpa [prevOf_nil] using h2, h3⟩
        | cons c' pre' =>
            obtain ⟨hc, hrest⟩ : c = c' ∧ rest = pre' ++ kw ++ post := by simpa using h
            subst hc
            refine Or.inr ⟨pre', post, hrest, ?_, h3⟩
            rwa [prevOf_cons] at h2

theorem testWords_eq_true_iff (kws : List String) (t : String) :
    testWords kws t = true ↔ ∃ kw ∈ kws, occursAsWord kw.data t.data := by
  unfold testWords occursAsWord
  rw [List.any_eq_true]
  constructor
  · rintro ⟨kw, hmem, hc⟩
    obtain ⟨pre, post, h, h2, h3⟩ := (containsWordFrom_iff kw.toList t.toList none).mp hc
    exact ⟨kw, hmem, pre, post, by simpa [String.toList] using h,
      by rwa [prevOf_none] at h2, h3⟩
  · rintro ⟨kw, hmem, pre, post, h, h2, h3⟩
    refine ⟨kw, hmem, (containsWordFrom_iff kw.toList t.toList none).mpr
      ⟨pre, post, by simpa [String.toList] using h, by rwa [prevOf_none], h3⟩⟩

theorem testWords_eq_false_of_not (kws : List String) (t : String)
    (h : ¬ ∃ kw ∈ kws, occursAsWord kw.data t.data) : testWords kws t = false := by
  cases ht : testWords kws t
  · rfl
  · exact absurd ((testWords_eq_true_iff _ _).mp ht) h

/-! Claim theorems. -/

/-- Claim C1: when the gateway call for a turn fails, the turn is
converted to a degraded result rather than an escaping exception: the
fixed apology text is the one and only outbound frame and it is an
assistant_text frame; the openai_error LogEvent carrying the error
detail is appended to the trace immediately before the degraded reply
is sent; the user MemoryEntry written for the turn is retained (and is
the only memory change); the full log delta is the user_speech record
followed by the failure record; the handler never closes the
connection; and on the resulting state any subsequent user_speech frame
still dispatches an inference call, so the session stays able to
process further frames.  The same degraded conversion holds for the
malformed-response failure (`resp.output` absent): the apology is the
only outbound frame, the failure LogEvent precedes it in the trace, and
the user entry is retained (the empty-text assistant entry written
before the extraction TypeError is retained as well). -/
theorem gateway_failure_degraded (st : SessState) (t err : String)
    (fin : Option Bool) (emo : Option String) :
    sendsOf (msgEffects (InMsg.frame { event := some "user_speech", text := some t, isFinal := fin, emotion := emo }) (GatewayOutcome.throws err) st) = [OutFrame.assistantTextOut apologyText]
  ∧ (∃ pre, msgEffects (InMsg.frame { event := some "user_speech", text := some t, isFinal := fin, emotion := emo }) (GatewayOutcome.throws err) st =
      pre ++ [Effect.logAppend (LogEvent.openaiError err), Effect.send (OutFrame.assistantTextOut apologyText)])
  ∧ (stepSession st (InMsg.frame { event := some "user_speech", text := some t, isFinal := fin, emotion := emo }) (GatewayOutcome.throws err)).1.memory = st.memory ++ [{ role := "user", content := t }]
  ∧ logsOf (msgEffects (InMsg.frame { event := some "user_speech", text := some t, isFinal := fin, emotion := emo }) (GatewayOutcome.throws err) st) = [LogEvent.userSpeech t fin, LogEvent.openaiError err]
  ∧ Effect.closeConn ∉ msgEffects (InMsg.frame { event := some "user_speech", text := some t, isFinal := fin, emotion := emo }) (GatewayOutcome.throws err) st
  ∧ (∀ (t2 : String) (gw2 : GatewayOutcome),
      dispatchCount (msgEffects (InMsg.frame { event := some "user_speech", text := some t2, isFinal := some true, emotion := none }) gw2
        (stepSession st (InMsg.frame { event := some "user_speech", text := some t, isFinal := fin, emotion := emo }) (GatewayOutcome.throws err)).1) = 1)
  ∧ sendsOf (msgEffects (InMsg.frame { event := some "user_speech", text := some t, isFinal := fin, emotion := emo }) (GatewayOutcome.returns none) st) = [OutFrame.assistantTextOut apologyText]
  ∧ (∃ pre2, msgEffects (InMsg.frame { event := some "user_speech", text := some t, isFinal := fin, emotion := emo }) (GatewayOutcome.returns none) st =
      pre2 ++ [Effect.logAppend (LogEvent.openaiError undefinedFindError), Effect.send (OutFrame.assistantTextOut apologyText)])
  ∧ (stepSession st (InMsg.frame { event := some "user_speech", text := some t, isFinal := fin, emotion := emo }) (GatewayOutcome.returns none)).1.memory =
      st.memory ++ [{ role := "user", content := t }, { role := "assistant", content := "" }] := by
  refine ⟨?_, ?_, ?_, ?_, closeConn_not_in_msgEffects _ _ _, ?_, ?_, ?_, ?_⟩
  · rw [msgEffects_user_speech, turnEffects_some,
      sendsOf_append, sendsOf_append, sendsOf_sync, sendsOf_cont, sendsOf_dispatch_single]
    rfl
  · refine ⟨turnSyncEffects emo t fin ++ [Effect.dispatch (promptOf st emo t)], ?_⟩
    rw [msgEffects_user_speech, turnEffects_some]
    simp [turnContEffects]
  · rw [stepSession]
    simp only [msgEffects_user_speech, turnEffects_some]
    rw [applyEffects_memory, memAppendsOf_append, memAppendsOf_append,
      memAppendsOf_sync, memAppendsOf_cont_throws, memAppendsOf_dispatch_single]
    simp
  · rw [msgEffects_user_speech, turnEffects_some,
      logsOf_append, logsOf_append, logsOf_sync, logsOf_cont_throws, logsOf_dispatch_single]
    simp
  · intro t2 gw2
    rw [msgEffects_user_speech, turnEffects_some,
      dispatchCount_append, dispatchCount_append,
      dispatchCount_sync, dispatchCount_cont, dispatchCount_dispatch_single]
  · rw [msgEffects_user_speech, turnEffects_some,
      sendsOf_append, sendsOf_append, sendsOf_sync, sendsOf_cont, sendsOf_dispatch_single]
    rfl
  · refine ⟨turnSyncEffects emo t fin ++ [Effect.dispatch (promptOf st emo t)] ++
      [Effect.memAppend { role := "assistant", content := "" },
       Effect.logAppend (LogEvent.assistantTextLog "")], ?_⟩
    rw [msgEffects_user_speech, turnEffects_some]
    simp [turnContEffects]
  · rw [stepSession]
    simp only [msgEffects_user_speech, turnEffects_some]
    rw [applyEffects_memory, memAppendsOf_append, memAppendsOf_append,
      memAppendsOf_sync, memAppendsOf_cont_returns, memAppendsOf_dispatch_single]
    simp [assistantTextOf]

/-- Claim C2 (refuted by the code): the claim asserts at most one
inference call in flight per call at any time.  The message listener is
an async function that the event emitter does not await, so a second
user_speech frame arriving while the first turn is suspended at the
gateway `await` dispatches a second inference call before the first
turn's result has been merged: after delivering two user_speech frames
with no gateway resolution in between, the first delivery has one call
in flight and the second leaves two overlapping in-flight calls for the
same call id. -/
theorem overlapping_inference_dispatch :
    (deliverMsg initConc
      (InMsg.frame { event := some "user_speech", text := some "hi", isFinal := some true, emotion := none })).inFlight.length = 1
  ∧ (deliverMsg (deliverMsg initConc
      (InMsg.frame { event := some "user_speech", text := some "hi", isFinal := some true, emotion := none }))
      (InMsg.frame { event := some "user_speech", text := some "are you there", isFinal := some true, emotion := none })).inFlight.length = 2 := by
  constructor <;> rfl

/-- Claim C3: the turn dispatched to the gateway carries exactly one
prompt, and that prompt is the system entry (built from the tone of the
effective emotion) followed by the memory snapshot read at the moment
of the flush in stored order, followed by the current user turn: its
head is the system entry, its length is the snapshot length plus two,
position i+1 holds exactly the i-th snapshot entry with role and
content preserved, and its last element is the current user text —
so the snapshot is neither reordered, duplicated nor truncated and the
current user text enters the prompt exactly once, at the end. -/
theorem prompt_is_flush_snapshot (st : SessState) (t : String) (fin : Option Bool)
    (emo : Option String) (gw : GatewayOutcome) :
    dispatchesOf (msgEffects (InMsg.frame { event := some "user_speech", text := some t, isFinal := fin, emotion := emo }) gw st) = [promptOf st emo t]
  ∧ (promptOf st emo t).head? = some { role := "system", content := systemPrompt (emotionToTone (effectiveEmotion st emo)) }
  ∧ (promptOf st emo t).length = st.memory.length + 2
  ∧ (∀ i, i < st.memory.length →
      (promptOf st emo t)[i+1]? = (st.memory[i]?).map (fun m => { role := m.role, content := m.content }))
  ∧ (promptOf st emo t).getLast? = some { role := "user", content := t } := by
  refine ⟨?_, rfl, ?_, ?_, ?_⟩
  · rw [msgEffects_user_speech, turnEffects_some,
      dispatchesOf_append, dispatchesOf_append,
      dispatchesOf_sync, dispatchesOf_cont, dispatchesOf_dispatch_single]
    simp
  · simp [promptOf]
  · intro i hi
    have hsplit : (promptOf st emo t)[i+1]? =
        ((st.memory.map (fun m => ({ role := m.role, content := m.content } : PromptMsg))) ++
          [{ role := "user", content := t }])[i]? := by
      simp [promptOf]
    rw [hsplit, List.getElem?_append]
    simp [hi, List.getElem?_map]
  · have hsplit : promptOf st emo t =
        ({ role := "system", content := systemPrompt (emotionToTone (effectiveEmotion st emo)) } ::
          st.memory.map (fun m => ({ role := m.role, content := m.content } : PromptMsg))) ++
          [{ role := "user", content := t }] := by
      simp [promptOf]
    rw [hsplit, List.getLast?_concat]

/-- Witness for C3 at a concrete state: with one stored memory entry,
position 1 of the dispatched prompt is exactly that entry. -/
theorem prompt_is_flush_snapshot_witness :
    (promptOf { lastEmotion := "neutral", memory := [{ role := "system", content := "Call started" }], log := [] } none "hi")[1]? =
      some { role := "system", content := "Call started" } := by
  have h := (prompt_is_flush_snapshot
    { lastEmotion := "neutral", memory := [{ role := "system", content := "Call started" }], log := [] }
    "hi" (some true) none (GatewayOutcome.throws "x")).2.2.2.1 0 (by decide)
  simpa using h

/-- Claim C4: on a turn whose gateway promise resolves (any resolved
shape), memory gains exactly the user entry and the assistant entry, in
that order, and nothing else; moreover the user entry is the only
memory append before the dispatch effect and the assistant entry the
only one after it, i.e. the user entry is written before the gateway
call is dispatched and the assistant entry after it returns. -/
theorem success_memory_merge (st : SessState) (t : String) (fin : Option Bool)
    (emo : Option String) (out : Option (List OutputItem)) :
    (stepSession st (InMsg.frame { event := some "user_speech", text := some t, isFinal := fin, emotion := emo }) (GatewayOutcome.returns out)).1.memory =
      st.memory ++ [{ role := "user", content := t }, { role := "assistant", content := assistantTextOf out }]
  ∧ memAppendsOf (msgEffects (InMsg.frame { event := some "user_speech", text := some t, isFinal := fin, emotion := emo }) (GatewayOutcome.returns out) st) =
      [{ role := "user", content := t }, { role := "assistant", content := assistantTextOf out }]
  ∧ (∃ pre post, msgEffects (InMsg.frame { event := some "user_speech", text := some t, isFinal := fin, emotion := emo }) (GatewayOutcome.returns out) st =
        pre ++ [Effect.dispatch (promptOf st emo t)] ++ post
      ∧ memAppendsOf pre = [{ role := "user", content := t }]
      ∧ memAppendsOf post = [{ role := "assistant", content := assistantTextOf out }]) := by
  refine ⟨?_, ?_, ?_⟩
  · rw [stepSession]
    simp only [msgEffects_user_speech, turnEffects_some]
    rw [applyEffects_memory, memAppendsOf_append, memAppendsOf_append,
      memAppendsOf_sync, memAppendsOf_cont_returns, memAppendsOf_dispatch_single]
    simp
  · rw [msgEffects_user_speech, turnEffects_some,
      memAppendsOf_append, memAppendsOf_append,
      memAppendsOf_sync, memAppendsOf_cont_returns, memAppendsOf_dispatch_single]
    simp
  · exact ⟨turnSyncEffects emo t fin, turnContEffects (GatewayOutcome.returns out),
      by rw [msgEffects_user_speech, turnEffects_some],
      memAppendsOf_sync emo t fin, memAppendsOf_cont_returns out⟩

/-- Claim C5, counterexample: a user_speech fragment with isFinal =
false still dispatches an inference call — the handler is invoked for
every user_speech frame and never consults isFinal, so the claim that a
non-final fragment triggers no inference call is false on the code. -/
theorem nonfinal_fragment_triggers_inference :
    dispatchCount (msgEffects
      (InMsg.frame { event := some "user_speech", text := some "hello there", isFinal := some false, emotion := none })
      (GatewayOutcome.returns (some [])) initSess) = 1 := by decide

/-- Claim C5 as amended: every user_speech frame carrying a text field
dispatches exactly one inference turn regardless of its isFinal value
(there is no partial-text accumulation), while frames with any other
event value and unparseable frames dispatch none. -/
theorem every_user_speech_fragment_flushes (st : SessState) (gw : GatewayOutcome)
    (t : String) (fin : Option Bool) (emo : Option String) :
    dispatchCount (msgEffects (InMsg.frame { event := some "user_speech", text := some t, isFinal := fin, emotion := emo }) gw st) = 1
  ∧ (∀ d : FrameData, d.event ≠ some "user_speech" →
      dispatchCount (msgEffects (InMsg.frame d) gw st) = 0)
  ∧ dispatchCount (msgEffects InMsg.malformed gw st) = 0 := by
  refine ⟨?_, ?_, by simp [msgEffects, dispatchCount]⟩
  · rw [msgEffects_user_speech, turnEffects_some,
      dispatchCount_append, dispatchCount_append,
      dispatchCount_sync, dispatchCount_cont, dispatchCount_dispatch_single]
  · intro d hd
    by_cases hm : d.event = some "media"
    · simp [msgEffects, hm, dispatchCount]
    · by_cases hs : d.event = some "stop" <;> simp [msgEffects, hm, hd, hs, dispatchCount]

/-- Witness for the amended C5: a concrete non-final fragment dispatches
once and a concrete stop frame dispatches nothing. -/
theorem every_user_speech_fragment_flushes_witness :
    dispatchCount (msgEffects (InMsg.frame { event := some "user_speech", text := some "hi", isFinal := some false, emotion := none }) (GatewayOutcome.throws "x") initSess) = 1
  ∧ dispatchCount (msgEffects (InMsg.frame { event := some "stop", text := none, isFinal := none, emotion := none }) (GatewayOutcome.throws "x") initSess) = 0 :=
  ⟨(every_user_speech_fragment_flushes initSess (GatewayOutcome.throws "x") "hi" (some false) none).1,
   (every_user_speech_fragment_flushes initSess (GatewayOutcome.throws "x") "hi" (some false) none).2.1
     { event := some "stop", text := none, isFinal := none, emotion := none } (by decide)⟩

/-- Claim C6, counterexample: an unparseable frame produces an empty
effect trace — in particular no LogEvent is appended (the catch only
emits a console warning), refuting the claim that the session appends a
LogEvent recording the malformed input. -/
theorem malformed_frame_drops_without_log :
    msgEffects InMsg.malformed (GatewayOutcome.throws "irrelevant") initSess = []
  ∧ logsOf (msgEffects InMsg.malformed (GatewayOutcome.throws "irrelevant") initSess) = [] := by
  constructor <;> rfl

/-- Claim C6 as amended: a malformed inbound frame is dropped with no
effect at all — no LogEvent, no MemoryEntry, no state transition, no
outbound frame — and the connection is not closed. -/
theorem malformed_frame_dropped (gw : GatewayOutcome) (st : SessState) :
    msgEffects InMsg.malformed gw st = []
  ∧ stepSession st InMsg.malformed gw = (st, []) := by
  constructor
  · rfl
  · simp [stepSession, msgEffects, applyEffects, sendsOf]

/-- Claim C7, counterexample: a turn whose gateway resolves successfully
with a text item but no audio item emits no outbound frame at all —
there is no assistant_text fallback on the audio-less success path, so
the claim that every completed turn emits exactly one outbound reply
(text when audio is unavailable) is false on the code. -/
theorem successful_audioless_turn_sends_nothing :
    sendsOf (msgEffects
      (InMsg.frame { event := some "user_speech", text := some "hi", isFinal := some true, emotion := none })
      (GatewayOutcome.returns (some [{ type := "output_text", content := "Hello!", audio := none }])) initSess) = [] := by decide

/-- Claim C7 as amended: each turn emits at most one outbound frame,
determined by the gateway outcome alone: an assistant_audio frame
exactly when truthy audio is extracted from a resolved output array; an
assistant_text frame carrying the fixed apology exactly when the
promise rejects or the resolved output shape is missing; and no frame
at all when the turn succeeds without audio. -/
theorem outbound_frames_per_turn (st : SessState) (gw : GatewayOutcome)
    (t : String) (fin : Option Bool) (emo : Option String) :
    sendsOf (msgEffects (InMsg.frame { event := some "user_speech", text := some t, isFinal := fin, emotion := emo }) gw st) = outboundOfOutcome gw
  ∧ (outboundOfOutcome gw).length ≤ 1 := by
  constructor
  · rw [msgEffects_user_speech, turnEffects_some,
      sendsOf_append, sendsOf_append, sendsOf_sync, sendsOf_cont, sendsOf_dispatch_single]
    simp
  · rcases gw with err | _ | items
    · simp [outboundOfOutcome]
    · simp [outboundOfOutcome]
    · rcases h : extractAudio items with _ | a <;> simp [outboundOfOutcome, h]

/-- Claim C8: classifyIntent follows the ordered rule set — if the
lowercased text contains a schedule keyword as a word the result is
schedule_interview; otherwise, containing an info keyword yields info;
otherwise, containing a greeting keyword yields greeting; otherwise
unknown.  Containment is stated through the decomposition reading of
the word-boundary regexes (keyword delimited by string edges or
non-word characters); determinism holds by construction since the
embedding is a pure function of the text. -/
theorem classifyIntent_ordered_rules (text : String) :
    ((∃ kw ∈ scheduleKeywords, occursAsWord kw.data (lowerStr text).data) →
        classifyIntent text = "schedule_interview")
  ∧ ((¬ ∃ kw ∈ scheduleKeywords, occursAsWord kw.data (lowerStr text).data) →
     (∃ kw ∈ infoKeywords, occursAsWord kw.data (lowerStr text).data) →
        classifyIntent text = "info")
  ∧ ((¬ ∃ kw ∈ scheduleKeywords, occursAsWord kw.data (lowerStr text).data) →
     (¬ ∃ kw ∈ infoKeywords, occursAsWord kw.data (lowerStr text).data) →
     (∃ kw ∈ greetingKeywords, occursAsWord kw.data (lowerStr text).data) →
        classifyIntent text = "greeting")
  ∧ ((¬ ∃ kw ∈ scheduleKeywords, occursAsWord kw.data (lowerStr text).data) →
     (¬ ∃ kw ∈ infoKeywords, occursAsWord kw.data (lowerStr text).data) →
     (¬ ∃ kw ∈ greetingKeywords, occursAsWord kw.data (lowerStr text).data) →
        classifyIntent text = "unknown") := by
  refine ⟨?_, ?_, ?_, ?_⟩
  · intro hs
    have h1 : testWords scheduleKeywords (lowerStr text) = true :=
      (testWords_eq_true_iff _ _).mpr hs
    simp [classifyIntent, h1]
  · intro hns hi
    have h1 : testWords scheduleKeywords (lowerStr text) = false :=
      testWords_eq_false_of_not _ _ hns
    have h2 : testWords infoKeywords (lowerStr text) = true :=
      (testWords_eq_true_iff _ _).mpr hi
    simp [classifyIntent, h1, h2]
  · intro hns hni hg
    have h1 : testWords scheduleKeywords (lowerStr text) = false :=
      testWords_eq_false_of_not _ _ hns
    have h2 : testWords infoKeywords (lowerStr text) = false :=
      testWords_eq_false_of_not _ _ hni
    have h3 : testWords greetingKeywords (lowerStr text) = true :=
      (testWords_eq_true_iff _ _).mpr hg
    simp [classifyIntent, h1, h2, h3]
  · intro hns hni hng
    have h1 : testWords scheduleKeywords (lowerStr text) = false :=
      testWords_eq_false_of_not _ _ hns
    have h2 : testWords infoKeywords (lowerStr text) = false :=
      testWords_eq_false_of_not _ _ hni
    have h3 : testWords greetingKeywords (lowerStr text) = false :=
      testWords_eq_false_of_not _ _ hng
    simp [classifyIntent, h1, h2, h3]

/-- Witness for C8: one concrete input per rule, each hypothesis
discharged through the scanner/decomposition equivalence by
computation. -/
theorem classifyIntent_ordered_rules_witness :
    classifyIntent "Can I book a time" = "schedule_interview"
  ∧ classifyIntent "what are your hours" = "info"
  ∧ classifyIntent "hello there friend" = "greeting"
  ∧ classifyIntent "thanks a lot" = "unknown" :=
  ⟨(classifyIntent_ordered_rules "Can I book a time").1
     ((testWords_eq_true_iff _ _).mp (by decide)),
   (classifyIntent_ordered_rules "what are your hours").2.1
     (fun hx => absurd ((testWords_eq_true_iff _ _).mpr hx) (by decide))
     ((testWords_eq_true_iff _ _).mp (by decide)),
   (classifyIntent_ordered_rules "hello there friend").2.2.1
     (fun hx => absurd ((testWords_eq_true_iff _ _).mpr hx) (by decide))
     (fun hx => absurd ((testWords_eq_true_iff _ _).mpr hx) (by decide))
     ((testWords_eq_true_iff _ _).mp (by decide)),
   (classifyIntent_ordered_rules "thanks a lot").2.2.2
     (fun hx => absurd ((testWords_eq_true_iff _ _).mpr hx) (by decide))
     (fun hx => absurd ((testWords_eq_true_iff _ _).mpr hx) (by decide))
     (fun hx => absurd ((testWords_eq_true_iff _ _).mpr hx) (by decide))⟩

/-- Claim C9: the emotion label starts as neutral and is updated only
by a user_speech frame whose emotion field is present and non-empty —
such a frame (with or without a text field) sets the label to that
emotion; a user_speech frame with an absent or empty emotion leaves it
unchanged; every frame with a different event value and every malformed
frame leaves it unchanged. -/
theorem emotion_label_discipline (st : SessState) (gw : GatewayOutcome) :
    initSess.lastEmotion = "neutral"
  ∧ (∀ (txt : Option String) (fin : Option Bool) (e : String), e ≠ "" →
      (stepSession st (InMsg.frame { event := some "user_speech", text := txt, isFinal := fin, emotion := some e }) gw).1.lastEmotion = e)
  ∧ (∀ (txt : Option String) (fin : Option Bool),
      (stepSession st (InMsg.frame { event := some "user_speech", text := txt, isFinal := fin, emotion := none }) gw).1.lastEmotion = st.lastEmotion
    ∧ (stepSession st (InMsg.frame { event := some "user_speech", text := txt, isFinal := fin, emotion := some "" }) gw).1.lastEmotion = st.lastEmotion)
  ∧ (∀ d : FrameData, d.event ≠ some "user_speech" →
      (stepSession st (InMsg.frame d) gw).1.lastEmotion = st.lastEmotion)
  ∧ (stepSession st InMsg.malformed gw).1.lastEmotion = st.lastEmotion := by
  have hcont : ∀ s, Effect.setEmotion s ∉ turnContEffects gw := by
    intro s
    rcases gw with err | _ | items
    · simp [turnContEffects]
    · simp [turnContEffects]
    · rcases h : extractAudio items with _ | a <;> simp [turnContEffects, h]
  have hturn : ∀ (txt : Option String) (fin : Option Bool) (emo : Option String),
      (applyEffects st (turnEffects st txt fin emo gw)).lastEmotion = effectiveEmotion st emo := by
    intro txt fin emo
    rcases txt with _ | t
    · simpa [turnEffects] using applyEffects_emo_lastEmotion st emo
    · have hsplit : turnEffects st (some t) fin emo gw =
          emoEffects emo ++ ([Effect.memAppend { role := "user", content := t },
            Effect.logAppend (LogEvent.userSpeech t fin)] ++
           ([Effect.dispatch (promptOf st emo t)] ++ turnContEffects gw)) := by
        rw [turnEffects_some, turnSyncEffects]
        simp
      have hrest : ∀ s, Effect.setEmotion s ∉
          ([Effect.memAppend { role := "user", content := t },
            Effect.logAppend (LogEvent.userSpeech t fin)] ++
           ([Effect.dispatch (promptOf st emo t)] ++ turnContEffects gw)) := by
        intro s
        simp [hcont s]
      rw [hsplit, applyEffects_append, applyEffects_lastEmotion_of_no_set _ _ hrest,
        applyEffects_emo_lastEmotion]
  refine ⟨rfl, ?_, ?_, ?_, ?_⟩
  · intro txt fin e he
    have := hturn txt fin (some e)
    simpa [stepSession, msgEffects_user_speech, effectiveEmotion, he] using this
  · intro txt fin
    constructor
    · simpa [stepSession, msgEffects_user_speech, effectiveEmotion] using hturn txt fin none
    · simpa [stepSession, msgEffects_user_speech, effectiveEmotion] using hturn txt fin (some "")
  · intro d hd
    by_cases hm : d.event = some "media"
    · simp [stepSession, msgEffects, hm, applyEffects]
    · by_cases hs : d.event = some "stop" <;>
        simp [stepSession, msgEffects, hm, hd, hs, applyEffects, applyEff]
  · simp [stepSession, msgEffects, applyEffects]

/-- Witness for C9: a concrete user_speech frame with emotion sad sets
the label, and a concrete stop frame carrying an emotion field leaves
the initial neutral label unchanged. -/
theorem emotion_label_discipline_witness :
    (stepSession initSess (InMsg.frame { event := some "user_speech", text := some "hello", isFinal := some true, emotion := some "sad" }) (GatewayOutcome.throws "x")).1.lastEmotion = "sad"
  ∧ (stepSession initSess (InMsg.frame { event := some "stop", text := none, isFinal := none, emotion := some "angry" }) (GatewayOutcome.throws "x")).1.lastEmotion = "neutral" :=
  ⟨(emotion_label_discipline initSess (GatewayOutcome.throws "x")).2.1 (some "hello") (some true) "sad" (by decide),
   (emotion_label_discipline initSess (GatewayOutcome.throws "x")).2.2.2.1
     { event := some "stop", text := none, isFinal := none, emotion := some "angry" } (by decide)⟩

/-- Claim C10: a stop frame only appends the call_end log record — it
sends nothing, dispatches nothing, closes nothing and leaves memory and
the emotion label unchanged; a call_end frame matches no handler branch
and has no effect at all. -/
theorem stop_and_call_end_effects (st : SessState) (gw : GatewayOutcome)
    (txt : Option String) (fin : Option Bool) (emo : Option String) :
    msgEffects (InMsg.frame { event := some "stop", text := txt, isFinal := fin, emotion := emo }) gw st = [Effect.logAppend LogEvent.callEnd]
  ∧ msgEffects (InMsg.frame { event := some "call_end", text := txt, isFinal := fin, emotion := emo }) gw st = []
  ∧ (stepSession st (InMsg.frame { event := some "stop", text := txt, isFinal := fin, emotion := emo }) gw).1.memory = st.memory
  ∧ (stepSession st (InMsg.frame { event := some "stop", text := txt, isFinal := fin, emotion := emo }) gw).1.lastEmotion = st.lastEmotion
  ∧ (stepSession st (InMsg.frame { event := some "stop", text := txt, isFinal := fin, emotion := emo }) gw).1.log = st.log ++ [LogEvent.callEnd]
  ∧ (stepSession st (InMsg.frame { event := some "stop", text := txt, isFinal := fin, emotion := emo }) gw).2 = []
  ∧ stepSession st (InMsg.frame { event := some "call_end", text := txt, isFinal := fin, emotion := emo }) gw = (st, []) := by
  refine ⟨rfl, rfl, ?_, ?_, ?_, ?_, ?_⟩ <;>
    simp [stepSession, msgEffects, applyEffects, applyEff, sendsOf]

end VoiceServer
